import Mathlib

/-!
Shallow embedding of the signal/frame codec core of a CAN-matrix library
(canmatrix.py), together with theorems checking its natural-language
specification.

Modelling conventions:
* Python `decimal.Decimal` values (factor, offset, min, max, scaled values)
  are modelled as exact rationals.  Python `int` is modelled as `Int`.
* Python `int(...)` applied to a Decimal truncates toward zero; see `pyInt`.
* The `bitstruct` format string is modelled as a list of field descriptors
  (`FmtItem`), and `bitstruct.pack`/`unpack` as bit-list builders/readers:
  a field's big-endian two's-complement bits, reversed when the field has
  LSB-first bit order (the library's `<` prefix).  IEEE-754 float fields are
  not modelled; packing or unpacking them returns an error, which no claim
  below exercises.
* Logging calls have no effect on results and are omitted.
* Python exceptions are modelled with `Except String`.
* Python's stable `sorted(..., key=getStartbit)` is modelled by a stable
  insertion sort on the same key.
-/

/-- Truncation toward zero of a rational, as Python's int() applied to a Decimal. -/
def pyInt (q : ℚ) : ℤ := if q < 0 then ⌈q⌉ else ⌊q⌋

/-- Multiplex attribute accepted by the Signal constructor: Python None,
the string Multiplexor, or an integer multiplex value. -/
inductive MuxSpec
  | noMux
  | multiplexor
  | val (n : ℤ)
  deriving DecidableEq

/-- Dynamically typed value passed to phys2raw / returned by raw2phys:
a number or a symbolic value-table string. -/
inductive PhysValue
  | num (q : ℚ)
  | str (s : String)
  deriving DecidableEq

/-- Signal record: the fields of canmatrix.Signal used by the codec.
mux_val and is_multiplexer are the fields that multiplexSetter fills in
during attrs post-init. -/
structure Signal where
  name : String
  startBit : ℤ
  size : ℕ
  is_little_endian : Bool
  is_signed : Bool
  offset : ℚ
  factor : ℚ
  min : ℚ
  max : ℚ
  multiplex : MuxSpec
  mux_val : Option ℤ
  is_multiplexer : Bool
  is_float : Bool
  values : List (ℤ × String)
  attributes : List (String × ℚ)
  deriving DecidableEq

/-- Mirrors Signal.multiplexSetter: an integer value sets mux_val and leaves
is_multiplexer false; every other value, including Python None, takes the
else branch and sets is_multiplexer to true.  Returns
(stored multiplex, mux_val, is_multiplexer). -/
def multiplexSetter (value : MuxSpec) : MuxSpec × Option ℤ × Bool :=
  match value with
  | MuxSpec.val n => (MuxSpec.val n, some n, false)
  | m => (m, none, true)

/-- Raw range from bit width and signedness, as Signal.calculateRawRange:
rawRange = 2 ^ (size - (1 if signed else 0)), result
(-rawRange if signed else 0, rawRange - 1).  The exponent is an integer, so
size = 0 with is_signed reproduces Python's 2 ** (-1) = 0.5. -/
def rawRangePair (size : ℕ) (is_signed : Bool) : ℚ × ℚ :=
  let rawRange : ℚ := 2 ^ ((size : ℤ) - (if is_signed then 1 else 0))
  (if is_signed then -rawRange else 0, rawRange - 1)

/-- Builds a Signal the way the attrs constructor plus attrs post-init does:
min and max default to calcMin and calcMax when not supplied, and
multiplexSetter fills multiplex, mux_val and is_multiplexer. -/
def Signal.make (name : String) (startBit : ℤ) (size : ℕ)
    (is_little_endian is_signed : Bool) (offset factor : ℚ)
    (minOpt maxOpt : Option ℚ) (multiplex : MuxSpec) (is_float : Bool)
    (values : List (ℤ × String)) (attributes : List (String × ℚ)) : Signal :=
  let r := rawRangePair size is_signed
  let ms := multiplexSetter multiplex
  { name := name
    startBit := startBit
    size := size
    is_little_endian := is_little_endian
    is_signed := is_signed
    offset := offset
    factor := factor
    min := minOpt.getD (offset + r.1 * factor)
    max := maxOpt.getD (offset + r.2 * factor)
    multiplex := ms.1
    mux_val := ms.2.1
    is_multiplexer := ms.2.2
    is_float := is_float
    values := values
    attributes := attributes }

/-- Signal.calculateRawRange on a built signal. -/
def Signal.calculateRawRange (sig : Signal) : ℚ × ℚ :=
  rawRangePair sig.size sig.is_signed

/-- Signal.calcMin: offset + rawMin * factor. -/
def Signal.calcMin (sig : Signal) : ℚ := sig.offset + (sig.calculateRawRange).1 * sig.factor

/-- Signal.calcMax: offset + rawMax * factor. -/
def Signal.calcMax (sig : Signal) : ℚ := sig.offset + (sig.calculateRawRange).2 * sig.factor

/-- Reflection of a bit index within its byte: b - b % 8 + 7 - b % 8, with
Python's nonnegative-remainder %, which Int.emod matches for modulus 8. -/
def reflectBit (b : ℤ) : ℤ := b - b % 8 + 7 - b % 8

/-- Condition bitNumbering is not None and bitNumbering differs from
is_little_endian (Signal.setStartbit / getStartbit). -/
def bnDiffers (bitNumbering : Option Bool) (le : Bool) : Bool :=
  match bitNumbering with
  | some bn => bn != le
  | none => false

/-- Condition startLittle is True and the signal is big-endian. -/
def startLittleBig (startLittle : Option Bool) (le : Bool) : Bool :=
  startLittle == some true && le == false

/-- Signal.getStartbit: startLittle transform first (start-of-data to msb),
then byte-internal bit reflection when the bit numbering differs from the
byte order. -/
def Signal.getStartbit (sig : Signal) (bitNumbering startLittle : Option Bool) : ℤ :=
  let b1 := if startLittleBig startLittle sig.is_little_endian
    then sig.startBit + (sig.size : ℤ) - 1 else sig.startBit
  if bnDiffers bitNumbering sig.is_little_endian then reflectBit b1 else b1

/-- Bit position Signal.setStartbit computes before its negativity check:
reflection first, then the startLittle transform. -/
def computedStartbit (sig : Signal) (startBit : ℤ)
    (bitNumbering startLittle : Option Bool) : ℤ :=
  let b1 := if bnDiffers bitNumbering sig.is_little_endian
    then reflectBit startBit else startBit
  if startLittleBig startLittle sig.is_little_endian
    then b1 + 1 - (sig.size : ℤ) else b1

/-- Signal.setStartbit: raises when the transformed bit position is negative
(leaving the signal unchanged), otherwise stores it. -/
def Signal.setStartbit (sig : Signal) (startBit : ℤ)
    (bitNumbering startLittle : Option Bool) : Except String Signal :=
  let b := computedStartbit sig startBit bitNumbering startLittle
  if b < 0 then Except.error "startBit lower zero"
  else Except.ok { sig with startBit := b }

/-- First value-table key whose description equals s (the for/break loop in
Signal.phys2raw). -/
def findValueKey (values : List (ℤ × String)) (s : String) : Option ℤ :=
  match values with
  | [] => none
  | kv :: rest => if kv.2 = s then some kv.1 else findValueKey rest s

/-- dict.get with a default, for the attributes mapping. -/
def lookupAttr (attributes : List (String × ℚ)) (key : String) (dflt : ℚ) : ℚ :=
  match attributes with
  | [] => dflt
  | kv :: rest => if kv.1 = key then kv.2 else lookupAttr rest key dflt

/-- Scaling tail of Signal.phys2raw: raw = (value - offset) / factor,
truncated to an integer unless the signal is a float signal. -/
def scaleToRaw (sig : Signal) (q : ℚ) : ℚ :=
  if sig.is_float then (q - sig.offset) / sig.factor
  else ((pyInt ((q - sig.offset) / sig.factor) : ℤ) : ℚ)

/-- Signal.phys2raw.  None defaults to int(attributes.get GenSigStartValue 0);
a string is substituted by its value-table key or raises ValueError; the
out-of-range check only logs and is therefore omitted here. -/
def Signal.phys2raw (sig : Signal) (value : Option PhysValue) : Except String ℚ :=
  match value with
  | none => Except.ok ((pyInt (lookupAttr sig.attributes "GenSigStartValue" 0) : ℤ) : ℚ)
  | some (PhysValue.num q) => Except.ok (scaleToRaw sig q)
  | some (PhysValue.str s) =>
    match findValueKey sig.values s with
    | some k => Except.ok (scaleToRaw sig (k : ℚ))
    | none => Except.error (s ++ " is invalid value choice for " ++ sig.name)

/-- First value-table entry whose key equals v (the for/break loop in
Signal.raw2phys). -/
def firstValueName (values : List (ℤ × String)) (v : ℚ) : Option String :=
  match values with
  | [] => none
  | kv :: rest => if (kv.1 : ℚ) = v then some kv.2 else firstValueName rest v

/-- Signal.raw2phys: physical = raw * factor + offset; when decodeToStr is
set, a value-table key equal to the physical value is replaced by its name. -/
def Signal.raw2phys (sig : Signal) (value : ℚ) (decodeToStr : Bool) : PhysValue :=
  let v := value * sig.factor + sig.offset
  if decodeToStr then
    match firstValueName sig.values v with
    | some s => PhysValue.str s
    | none => PhysValue.num v
  else PhysValue.num v

/-- Field type letter of a bitstruct field: float, signed or unsigned. -/
inductive FmtType
  | fFloat
  | sSigned
  | uUnsigned
  deriving DecidableEq

/-- One entry of a bitstruct format string: a padding field pN, or a data
field with bit order, type letter and bit width.  Widths of padding are kept
as integers because the source appends str(end) even when end is not a
sensible width. -/
inductive FmtItem
  | pad (width : ℤ)
  | field (littleEndian : Bool) (ftype : FmtType) (width : ℕ)
  deriving DecidableEq

/-- Signal.bitstruct_format: endianness prefix, f/s/u type letter, bit size. -/
def Signal.bitstruct_format (sig : Signal) : FmtItem :=
  FmtItem.field sig.is_little_endian
    (if sig.is_float then FmtType.fFloat
     else if sig.is_signed then FmtType.sSigned else FmtType.uUnsigned)
    sig.size

/-- Bit width of one format item (bitstruct.calcsize of the single field). -/
def fmtWidth : FmtItem → ℤ
  | FmtItem.pad w => w
  | FmtItem.field _ _ w => (w : ℤ)

/-- Total bit width of a format (bitstruct.calcsize). -/
def calcsize (fmt : List FmtItem) : ℤ := (fmt.map fmtWidth).sum

/-- Frame record: the canmatrix.Frame fields used by the codec. -/
structure Frame where
  name : String
  id : ℕ
  size : ℕ
  extended : Bool
  is_complex_multiplexed : Bool
  signals : List Signal
  deriving DecidableEq

/-- Frame.is_multiplexed: true when at least one signal is a multiplexer. -/
def Frame.is_multiplexed (fr : Frame) : Bool :=
  fr.signals.any (fun s => s.is_multiplexer)

/-- Sort key used throughout Frame: signal.getStartbit() with no arguments. -/
def sortKey (s : Signal) : ℤ := s.getStartbit none none

/-- Stable insertion of a signal into a list sorted by sortKey. -/
def insertByStartbit (s : Signal) (l : List Signal) : List Signal :=
  match l with
  | [] => [s]
  | t :: ts => if sortKey s ≤ sortKey t then s :: t :: ts else t :: insertByStartbit s ts

/-- Stable sort by sortKey, modelling Python sorted(key=getStartbit). -/
def sortByStartbit (l : List Signal) : List Signal :=
  match l with
  | [] => []
  | s :: ss => insertByStartbit s (sortByStartbit ss)

/-- Loop body of Frame.bitstruct_format over the already sorted signals:
start = frame_size - startbit - size, padding = end - (start + size),
positive paddings are emitted, end moves to start, and a final positive end
is emitted as trailing padding. -/
def fmtFields (frame_size : ℤ) (signals : List Signal) (endPos : ℤ) : List FmtItem :=
  match signals with
  | [] => if endPos ≠ 0 then [FmtItem.pad endPos] else []
  | sig :: rest =>
    let start := frame_size - sig.getStartbit none none - (sig.size : ℤ)
    let padding := endPos - (start + (sig.size : ℤ))
    (if padding > 0 then [FmtItem.pad padding] else []) ++
      (sig.bitstruct_format :: fmtFields frame_size rest start)

/-- Frame.bitstruct_format: optional signal subset (None means the frame's
own signals), sorted ascending by getStartbit, fields laid out from bit
frame_size * 8 downward. -/
def Frame.bitstruct_format (fr : Frame) (signalsToDecode : Option (List Signal)) :
    List FmtItem :=
  let sigs := match signalsToDecode with
    | none => fr.signals
    | some l => l
  fmtFields ((fr.size : ℤ) * 8) (sortByStartbit sigs) ((fr.size : ℤ) * 8)

/-- Big-endian bits of v mod 2 ^ width, most significant first. -/
def natToBits (width : ℕ) (v : ℕ) : List Bool :=
  (List.range width).map (fun i => v.testBit (width - 1 - i))

/-- Value of a most-significant-first bit list. -/
def bitsToNat (bits : List Bool) : ℕ :=
  bits.foldl (fun a b => 2 * a + (if b then 1 else 0)) 0

/-- bitstruct packing of one integer field: two's-complement big-endian
bits, reversed when the field is LSB-first (the library's < prefix). -/
def packField (le : Bool) (width : ℕ) (v : ℤ) : List Bool :=
  let bits := natToBits width (v % ((2 : ℤ) ^ width)).toNat
  if le then bits.reverse else bits

/-- bitstruct unpacking of one integer field: undo the LSB-first reversal,
read the unsigned value, and sign-extend when the field is signed and its
top bit is set. -/
def unpackField (le : Bool) (signed : Bool) (bits : List Bool) : ℤ :=
  let bits2 := if le then bits.reverse else bits
  let n := bitsToNat bits2
  if signed = true ∧ 0 < bits.length ∧ 2 ^ (bits.length - 1) ≤ n
    then (n : ℤ) - 2 ^ bits.length else (n : ℤ)

/-- bitstruct.pack over a format: padding packs as zero bits, fields consume
one value each; float fields are not modelled. -/
def packFmt (fmt : List FmtItem) (vals : List ℤ) : Except String (List Bool) :=
  match fmt, vals with
  | [], [] => Except.ok []
  | [], _ :: _ => Except.error "too many values for format"
  | FmtItem.pad w :: rest, vs =>
    if w < 0 then Except.error "negative padding in format" else
      match packFmt rest vs with
      | Except.error e => Except.error e
      | Except.ok bits => Except.ok (List.replicate w.toNat false ++ bits)
  | FmtItem.field _ FmtType.fFloat _ :: _, _ => Except.error "float packing not modelled"
  | FmtItem.field le _ w :: rest, v :: vs =>
    match packFmt rest vs with
    | Except.error e => Except.error e
    | Except.ok bits => Except.ok (packField le w v ++ bits)
  | FmtItem.field _ _ _ :: _, [] => Except.error "too few values for format"

/-- bitstruct.pack pads its result with zero bits to a whole byte count. -/
def padToByte (bits : List Bool) : List Bool :=
  bits ++ List.replicate ((8 - bits.length % 8) % 8) false

/-- bitstruct.pack: pack all fields then pad to a byte boundary. -/
def bitstructPack (fmt : List FmtItem) (vals : List ℤ) : Except String (List Bool) :=
  match packFmt fmt vals with
  | Except.error e => Except.error e
  | Except.ok bits => Except.ok (padToByte bits)

/-- bitstruct.unpack: read the fields of the format from the front of the
bit string; data beyond the format's width is ignored. -/
def unpackFmt (fmt : List FmtItem) (bits : List Bool) : Except String (List ℤ) :=
  match fmt with
  | [] => Except.ok []
  | FmtItem.pad w :: rest =>
    if w < 0 then Except.error "negative padding in format"
    else if bits.length < w.toNat then Except.error "data too short"
    else unpackFmt rest (bits.drop w.toNat)
  | FmtItem.field _ FmtType.fFloat _ :: _ => Except.error "float unpacking not modelled"
  | FmtItem.field le t w :: rest =>
    if bits.length < w then Except.error "data too short"
    else match unpackFmt rest (bits.drop w) with
      | Except.error e => Except.error e
      | Except.ok vs => Except.ok (unpackField le (t == FmtType.sSigned) (bits.take w) :: vs)

/-- dict.get over the name-to-value data mapping passed to encode. -/
def getData (data : List (String × PhysValue)) (key : String) : Option PhysValue :=
  match data with
  | [] => none
  | kv :: rest => if kv.1 = key then some kv.2 else getData rest key

/-- Last signal with is_multiplexer set: the encode/decode search loops keep
overwriting muxSignal, so the last match wins. -/
def lastMultiplexer (signals : List Signal) : Option Signal :=
  signals.foldl (fun acc s => if s.is_multiplexer then some s else acc) none

/-- Membership test of encode's mux group: signal.mux_val == muxVal (Python
equality of an optional int against the looked-up data value) or
signal.mux_val is None. -/
def muxCondition (s : Signal) (muxVal : Option PhysValue) : Bool :=
  (match s.mux_val, muxVal with
   | some k, some (PhysValue.num q) => decide (q = (k : ℚ))
   | _, _ => false) || (s.mux_val == none)

/-- Raw values for packing: phys2raw of each sorted signal's data entry.
The non-float result of phys2raw is an integer-valued rational, extracted
here with pyInt (lossless); float fields error out in packFmt anyway. -/
def rawValues (signals : List Signal) (data : List (String × PhysValue)) :
    Except String (List ℤ) :=
  match signals with
  | [] => Except.ok []
  | s :: rest =>
    match s.phys2raw (getData data s.name) with
    | Except.error e => Except.error e
    | Except.ok q =>
      match rawValues rest data with
      | Except.error e => Except.error e
      | Except.ok qs => Except.ok (pyInt q :: qs)

/-- Frame.encode.  The multiplexed path prepends the multiplexor to the
signals selected by muxCondition, exactly as the source's
encodeSignals = [muxSignal] followed by the append loop does, so the
multiplexor (whose mux_val is None) appears twice. -/
def Frame.encode (fr : Frame) (data : List (String × PhysValue)) :
    Except String (List Bool) :=
  if fr.is_complex_multiplexed then
    Except.error "complex multiplexed frames are not handled"
  else
    let fmtSignals : Except String (List FmtItem × List Signal) :=
      if fr.is_multiplexed then
        match lastMultiplexer fr.signals with
        | none => Except.error "no multiplexer signal found"
        | some muxSignal =>
          let muxVal := getData data muxSignal.name
          let encodeSignals := muxSignal :: fr.signals.filter (fun s => muxCondition s muxVal)
          Except.ok (fr.bitstruct_format (some encodeSignals), sortByStartbit encodeSignals)
      else
        Except.ok (fr.bitstruct_format none, sortByStartbit fr.signals)
    match fmtSignals with
    | Except.error e => Except.error e
    | Except.ok (fmt, signals) =>
      match rawValues signals data with
      | Except.error e => Except.error e
      | Except.ok vals => bitstructPack fmt vals

/-- zip of sorted signals with unpacked raw values, each converted by its
signal's raw2phys (the OrderedDict built in Frame.decode); zip truncates at
the shorter list. -/
def physValues (signals : List Signal) (vals : List ℤ) (decodeToStr : Bool) :
    List (String × PhysValue) :=
  match signals, vals with
  | s :: ss, v :: vs =>
    (s.name, s.raw2phys (v : ℚ) decodeToStr) :: physValues ss vs decodeToStr
  | _, _ => []

/-- Frame.decode.  The multiplexed path first unpacks a format holding only
the multiplexor's field, takes int() of the first decoded value as the
multiplex value, then re-resolves the active subset (mux_val equal or None)
and unpacks its full format from the same data. -/
def Frame.decode (fr : Frame) (data : List Bool) (decodeToStr : Bool) :
    Except String (List (String × PhysValue)) :=
  if fr.is_complex_multiplexed then
    Except.error "complex multiplexed frames are not handled"
  else
    let fmtSignals : Except String (List FmtItem × List Signal) :=
      if fr.is_multiplexed then
        match lastMultiplexer fr.signals with
        | none => Except.error "no multiplexer signal found"
        | some muxSignal =>
          match unpackFmt (fr.bitstruct_format (some [muxSignal])) data with
          | Except.error e => Except.error e
          | Except.ok vals1 =>
            match (physValues (sortByStartbit fr.signals) vals1 decodeToStr).head? with
            | none => Except.error "no decoded multiplexer value"
            | some nv =>
              match nv.2 with
              | PhysValue.str _ => Except.error "int applied to a string value"
              | PhysValue.num q =>
                let muxVal := pyInt q
                let muxedSignals := fr.signals.filter
                  (fun s => (s.mux_val == some muxVal) || (s.mux_val == none))
                Except.ok (fr.bitstruct_format (some muxedSignals), sortByStartbit muxedSignals)
      else
        Except.ok (fr.bitstruct_format none, sortByStartbit fr.signals)
    match fmtSignals with
    | Except.error e => Except.error e
    | Except.ok (fmt, signals) =>
      match unpackFmt fmt data with
      | Except.error e => Except.error e
      | Except.ok vals => Except.ok (physValues signals vals decodeToStr)

/-- Loop of Frame.calcDLC and of the force branch of CanMatrix.recalcDLC:
largest getStartbit() + size over the signals, starting from 0. -/
def maxBitLoop (signals : List Signal) : ℤ :=
  signals.foldl (fun m s =>
    if s.getStartbit none none + (s.size : ℤ) > m
      then s.getStartbit none none + (s.size : ℤ) else m) 0

/-- math.ceil(maxBit / 8) as a byte count. -/
def minDlcBytes (signals : List Signal) : ℕ := ((maxBitLoop signals + 7) / 8).toNat

/-- Frame.calcDLC: size becomes the maximum of the current size and the
minimal byte count covering the signals. -/
def Frame.calcDLC (fr : Frame) : Frame :=
  { fr with size := max fr.size (minDlcBytes fr.signals) }

/-- CanMatrix: the frame list (only field the recalcDLC claim needs). -/
structure CanMatrix where
  frames : List Frame
  deriving DecidableEq

/-- CanMatrix.recalcDLC: strategy max applies Frame.calcDLC, strategy force
overwrites size with the minimal byte count; both tested independently, as
in the source's two if statements. -/
def CanMatrix.recalcDLC (m : CanMatrix) (strategy : String) : CanMatrix :=
  { frames := m.frames.map (fun frame =>
      let f1 := if strategy = "max" then frame.calcDLC else frame
      if strategy = "force" then { f1 with size := minDlcBytes f1.signals } else f1) }

/-- CanId: J1939 decomposition of an identifier.  The class attributes start
as Python None and are only filled for extended identifiers. -/
structure CanId where
  source : Option ℕ
  pgn : Option ℕ
  destination : Option ℕ
  deriving DecidableEq

/-- CanId constructor: source = id & 0xFF, pgn = (id >> 8) & 0xFFFF,
destination = (id >> 24) & 0xFF; a standard identifier leaves all three
unset. -/
def CanId.ofId (id : ℕ) (extended : Bool) : CanId :=
  if extended then
    { source := some (id &&& 0xFF)
      pgn := some ((id >>> 8) &&& 0xFFFF)
      destination := some ((id >>> 24) &&& 0xFF) }
  else { source := none, pgn := none, destination := none }

/-- Frame.recalcJ1939Id composition:
id = (source & 0xFF) + ((pgn & 0xFFFF) << 8) + ((prio & 0x7) << 26). -/
def recalcJ1939Id (j1939_source j1939_pgn j1939_prio : ℕ) : ℕ :=
  (j1939_source &&& 0xFF) + ((j1939_pgn &&& 0xFFFF) <<< 8) + ((j1939_prio &&& 0x7) <<< 26)

/-! Basic lemmas about the embedding. -/

/-- getStartbit with no arguments returns the stored start bit unchanged. -/
theorem getStartbit_none_none (s : Signal) : s.getStartbit none none = s.startBit := rfl

/-- The sort key used by the frame layout is the stored start bit. -/
theorem sortKey_eq_startBit (s : Signal) : sortKey s = s.startBit := rfl

/-- Byte-internal bit reflection is an involution on all integers. -/
theorem reflectBit_reflectBit (b : ℤ) : reflectBit (reflectBit b) = b := by
  unfold reflectBit
  omega

/-- Truncation toward zero restores an integer embedded into the rationals. -/
theorem pyInt_intCast (n : ℤ) : pyInt (n : ℚ) = n := by
  unfold pyInt
  by_cases h : ((n : ℚ) < 0)
  · rw [if_pos h, Int.ceil_intCast]
  · rw [if_neg h, Int.floor_intCast]

/-- Denormalizing the bit position produced by getStartbit with the same
arguments recovers the stored start bit. -/
theorem computedStartbit_getStartbit (sig : Signal) (bn sl : Option Bool) :
    computedStartbit sig (sig.getStartbit bn sl) bn sl = sig.startBit := by
  unfold computedStartbit Signal.getStartbit
  by_cases hbn : bnDiffers bn sig.is_little_endian = true <;>
    by_cases hsl : startLittleBig sl sig.is_little_endian = true <;>
      simp [hbn, hsl, reflectBit_reflectBit]

/-- C5: for every signal whose stored startBit is nonnegative (so that the
negativity check passes) and every choice of bitNumbering / startLittle
arguments, Signal.setStartbit applied to the result of Signal.getStartbit
with the same arguments restores the signal exactly: the denormalization
undoes the byte-reflection and lsb-to-msb transforms in reverse order. -/
theorem setStartbit_getStartbit_roundtrip (sig : Signal) (bn sl : Option Bool)
    (h : 0 ≤ sig.startBit) :
    sig.setStartbit (sig.getStartbit bn sl) bn sl = Except.ok sig := by
  simp only [Signal.setStartbit, computedStartbit_getStartbit]
  rw [if_neg (by omega)]

/-- Concrete instance of the C5 round trip: a big-endian signal at
startBit 11 of size 4, with both transforms requested. -/
theorem setStartbit_getStartbit_roundtrip_witness :
    (Signal.make "pos" 11 4 false true 0 1 none none MuxSpec.noMux false [] []).setStartbit
      ((Signal.make "pos" 11 4 false true 0 1 none none MuxSpec.noMux false [] []).getStartbit
        (some true) (some true)) (some true) (some true) =
    Except.ok (Signal.make "pos" 11 4 false true 0 1 none none MuxSpec.noMux false [] []) :=
  setStartbit_getStartbit_roundtrip
    (Signal.make "pos" 11 4 false true 0 1 none none MuxSpec.noMux false [] [])
    (some true) (some true) (by decide)

/-- C6: Signal.setStartbit fails with the startBit-lower-zero error exactly
when the bit position computed by the reflection and lsb-to-msb transforms
is negative, returning no updated signal (the stored startBit is untouched);
otherwise it stores the computed nonnegative position. -/
theorem setStartbit_negative_rejected (sig : Signal) (b : ℤ) (bn sl : Option Bool) :
    (computedStartbit sig b bn sl < 0 →
      sig.setStartbit b bn sl = Except.error "startBit lower zero") ∧
    (0 ≤ computedStartbit sig b bn sl →
      sig.setStartbit b bn sl =
        Except.ok { sig with startBit := computedStartbit sig b bn sl }) := by
  constructor
  · intro h
    simp only [Signal.setStartbit]
    rw [if_pos h]
  · intro h
    simp only [Signal.setStartbit]
    rw [if_neg (by omega)]

/-- Concrete instances of C6: a little-endian signal rejects a negative
input position, and stores a nonnegative one. -/
theorem setStartbit_negative_rejected_witness :
    (computedStartbit (Signal.make "w6" 0 4 true true 0 1 none none MuxSpec.noMux false [] [])
        (-3) none none < 0 ∧
      (Signal.make "w6" 0 4 true true 0 1 none none MuxSpec.noMux false [] []).setStartbit
        (-3) none none = Except.error "startBit lower zero") ∧
    (0 ≤ computedStartbit (Signal.make "w6" 0 4 true true 0 1 none none MuxSpec.noMux false [] [])
        6 none none ∧
      (Signal.make "w6" 0 4 true true 0 1 none none MuxSpec.noMux false [] []).setStartbit
        6 none none = Except.ok
          { Signal.make "w6" 0 4 true true 0 1 none none MuxSpec.noMux false [] [] with
            startBit := computedStartbit
              (Signal.make "w6" 0 4 true true 0 1 none none MuxSpec.noMux false [] [])
              6 none none }) :=
  ⟨⟨by decide,
    (setStartbit_negative_rejected
      (Signal.make "w6" 0 4 true true 0 1 none none MuxSpec.noMux false [] [])
      (-3) none none).1 (by decide)⟩,
   ⟨by decide,
    (setStartbit_negative_rejected
      (Signal.make "w6" 0 4 true true 0 1 none none MuxSpec.noMux false [] [])
      6 none none).2 (by decide)⟩⟩

/-- C2: for every non-float signal with nonzero factor and every raw integer
in the signal's raw range, phys2raw of raw2phys recovers the raw value
exactly; the arithmetic is exact rational (decimal) arithmetic, so factors
such as 1/10 introduce no binary-float drift. -/
theorem phys2raw_raw2phys_roundtrip (sig : Signal) (raw : ℤ)
    (hfl : sig.is_float = false) (hfac : sig.factor ≠ 0)
    (hlo : (sig.calculateRawRange).1 ≤ (raw : ℚ))
    (hhi : (raw : ℚ) ≤ (sig.calculateRawRange).2) :
    sig.phys2raw (some (sig.raw2phys (raw : ℚ) false)) = Except.ok ((raw : ℤ) : ℚ) := by
  have hv : sig.raw2phys (raw : ℚ) false =
      PhysValue.num ((raw : ℚ) * sig.factor + sig.offset) := rfl
  rw [hv]
  show Except.ok (scaleToRaw sig ((raw : ℚ) * sig.factor + sig.offset)) = _
  have h1 : ((raw : ℚ) * sig.factor + sig.offset - sig.offset) / sig.factor = (raw : ℚ) := by
    field_simp
  simp only [scaleToRaw, hfl]
  rw [h1, pyInt_intCast, ite_self]

attribute [local semireducible] Rat.mul Rat.add Rat.sub Rat.inv in
/-- Concrete instance of the C2 round trip: signed 8-bit signal with
factor 1/10 and offset 3, raw value -5. -/
theorem phys2raw_raw2phys_roundtrip_witness :
    (Signal.make "speed" 0 8 true true 3 (1 / 10) none none MuxSpec.noMux false [] []).phys2raw
      (some ((Signal.make "speed" 0 8 true true 3 (1 / 10) none none
        MuxSpec.noMux false [] []).raw2phys (((-5 : ℤ) : ℚ)) false)) =
    Except.ok (((-5 : ℤ) : ℚ)) :=
  phys2raw_raw2phys_roundtrip
    (Signal.make "speed" 0 8 true true 3 (1 / 10) none none MuxSpec.noMux false [] [])
    (-5) (by decide) (by decide) (by decide) (by decide)

/-- C7: a numeric value outside [min, max] neither raises nor clamps:
phys2raw returns (value - offset) / factor, truncated to an integer unless
the signal is a float signal, exactly as for in-range values; the range
condition only feeds a log message. -/
theorem phys2raw_out_of_range_warning_only (sig : Signal) (q : ℚ)
    (hout : ¬ (sig.min ≤ q ∧ q ≤ sig.max)) :
    sig.phys2raw (some (PhysValue.num q)) = Except.ok (scaleToRaw sig q) ∧
    scaleToRaw sig q = (if sig.is_float = true then (q - sig.offset) / sig.factor
      else ((pyInt ((q - sig.offset) / sig.factor) : ℤ) : ℚ)) :=
  ⟨rfl, rfl⟩

/-- Concrete instance of C7: value 50 against bounds [0, 10] encodes to 50. -/
theorem phys2raw_out_of_range_warning_only_witness :
    ¬ ((Signal.make "bounded" 0 8 true false 0 1 (some 0) (some 10)
        MuxSpec.noMux false [] []).min ≤ (50 : ℚ) ∧
      (50 : ℚ) ≤ (Signal.make "bounded" 0 8 true false 0 1 (some 0) (some 10)
        MuxSpec.noMux false [] []).max) ∧
    (Signal.make "bounded" 0 8 true false 0 1 (some 0) (some 10)
        MuxSpec.noMux false [] []).phys2raw (some (PhysValue.num 50)) =
      Except.ok (scaleToRaw (Signal.make "bounded" 0 8 true false 0 1 (some 0) (some 10)
        MuxSpec.noMux false [] []) 50) :=
  ⟨by decide,
   (phys2raw_out_of_range_warning_only
     (Signal.make "bounded" 0 8 true false 0 1 (some 0) (some 10) MuxSpec.noMux false [] [])
     50 (by decide)).1⟩

/-- C8: phys2raw applied to a string raises a ValueError when no value-table
entry carries that name, and otherwise substitutes the first matching
integer key before scaling. -/
theorem phys2raw_symbolic_lookup (sig : Signal) (s : String) :
    (findValueKey sig.values s = none →
      sig.phys2raw (some (PhysValue.str s)) =
        Except.error (s ++ " is invalid value choice for " ++ sig.name)) ∧
    (∀ k : ℤ, findValueKey sig.values s = some k →
      sig.phys2raw (some (PhysValue.str s)) = Except.ok (scaleToRaw sig (k : ℚ))) := by
  constructor
  · intro h
    simp only [Signal.phys2raw, h]
  · intro k h
    simp only [Signal.phys2raw, h]

/-- Concrete instances of C8 over the value table 0 = Neutral, 1 = Drive:
the unknown name Reverse raises, the known name Drive encodes key 1. -/
theorem phys2raw_symbolic_lookup_witness :
    (findValueKey [((0 : ℤ), "Neutral"), (1, "Drive")] "Reverse" = none ∧
      (Signal.make "gear" 0 8 true false 0 1 none none MuxSpec.noMux false
          [(0, "Neutral"), (1, "Drive")] []).phys2raw (some (PhysValue.str "Reverse")) =
        Except.error ("Reverse" ++ " is invalid value choice for " ++
          (Signal.make "gear" 0 8 true false 0 1 none none MuxSpec.noMux false
            [(0, "Neutral"), (1, "Drive")] []).name)) ∧
    (findValueKey [((0 : ℤ), "Neutral"), (1, "Drive")] "Drive" = some 1 ∧
      (Signal.make "gear" 0 8 true false 0 1 none none MuxSpec.noMux false
          [(0, "Neutral"), (1, "Drive")] []).phys2raw (some (PhysValue.str "Drive")) =
        Except.ok (scaleToRaw (Signal.make "gear" 0 8 true false 0 1 none none MuxSpec.noMux
          false [(0, "Neutral"), (1, "Drive")] []) ((1 : ℤ) : ℚ))) :=
  ⟨⟨by decide,
    (phys2raw_symbolic_lookup
      (Signal.make "gear" 0 8 true false 0 1 none none MuxSpec.noMux false
        [(0, "Neutral"), (1, "Drive")] []) "Reverse").1 (by decide)⟩,
   ⟨by decide,
    (phys2raw_symbolic_lookup
      (Signal.make "gear" 0 8 true false 0 1 none none MuxSpec.noMux false
        [(0, "Neutral"), (1, "Drive")] []) "Drive").2 1 (by decide)⟩⟩

/-- C9: recalcDLC with strategy max applies Frame.calcDLC to every frame,
which sets size to the maximum of the current size and the minimal byte
count covering all signals (so it never shrinks), while strategy force
overwrites size with exactly that minimal byte count. -/
theorem recalcDLC_strategies :
    (∀ m : CanMatrix,
      (m.recalcDLC "max").frames = m.frames.map Frame.calcDLC ∧
      (m.recalcDLC "force").frames =
        m.frames.map (fun f => { f with size := minDlcBytes f.signals })) ∧
    (∀ f : Frame,
      (f.calcDLC).size = max f.size (minDlcBytes f.signals) ∧
      f.size ≤ (f.calcDLC).size) := by
  refine ⟨fun m => ⟨rfl, rfl⟩, fun f => ⟨rfl, ?_⟩⟩
  exact le_max_left f.size (minDlcBytes f.signals)

/-! Concrete frames used to evaluate the multiplex claims. -/

/-- Multiplexor signal of the spec's multiplex example: bits 0..2. -/
def muxSignal3 : Signal :=
  Signal.make "mux" 0 2 true true 0 1 none none MuxSpec.multiplexor false [] []

/-- Signal A of the multiplex example: bits 2..6, active when mux = 0. -/
def sigA3 : Signal :=
  Signal.make "A" 2 4 true true 0 1 none none (MuxSpec.val 0) false [] []

/-- Signal B of the multiplex example: bits 2..8, active when mux = 1. -/
def sigB3 : Signal :=
  Signal.make "B" 2 6 true true 0 1 none none (MuxSpec.val 1) false [] []

/-- The 1-byte multiplexed frame of the spec's example. -/
def muxFrame3 : Frame :=
  { name := "muxed", id := 2, size := 1, extended := false,
    is_complex_multiplexed := false, signals := [muxSignal3, sigA3, sigB3] }

/-- Payload Frame.encode actually produces for mux = 0, A = 5: the
multiplexor field is packed twice (10 format bits), so the result is two
bytes 0x0A 0x00 for a 1-byte frame. -/
def c3payload : List Bool :=
  [false, false, false, false, true, false, true, false,
   false, false, false, false, false, false, false, false]

attribute [local semireducible] Rat.mul Rat.add Rat.sub Rat.inv in
/-- C3: evaluation of the code on the spec's multiplex example.  Because
encode builds encodeSignals as [muxSignal] and then appends every signal
whose mux_val is None or equals the multiplex value - which appends the
multiplexor itself a second time - the packed format has 10 bits instead
of 8 and the payload is 2 bytes; decode, whose subset does not duplicate
the multiplexor, then reads A's field from the shifted position and returns
A = 4, not the encoded A = 5.  The round trip claimed by the spec fails. -/
theorem mux_roundtrip_failure :
    muxFrame3.encode [("mux", PhysValue.num 0), ("A", PhysValue.num 5)] =
      Except.ok c3payload ∧
    muxFrame3.decode c3payload false =
      Except.ok [("mux", PhysValue.num 0), ("A", PhysValue.num 4)] ∧
    muxFrame3.decode c3payload false ≠
      Except.ok [("mux", PhysValue.num 0), ("A", PhysValue.num 5)] := by
  refine ⟨rfl, rfl, ?_⟩
  intro h
  have hd : muxFrame3.decode c3payload false =
      Except.ok [("mux", PhysValue.num 0), ("A", PhysValue.num 4)] := rfl
  rw [hd] at h
  injection h with h2
  exact absurd h2 (by decide)

/-- Plain signal whose multiplex attribute is Python None. -/
def plainSignal : Signal :=
  Signal.make "plain" 0 8 true false 0 1 none none MuxSpec.noMux false [] []

/-- Frame holding only the plain signal. -/
def plainFrame : Frame :=
  { name := "plain", id := 3, size := 1, extended := false,
    is_complex_multiplexed := false, signals := [plainSignal] }

/-- C4: evaluation of the code on a frame with a single ordinary signal.
multiplexSetter's else branch catches Python None as well as Multiplexor,
so a signal whose multiplex attribute is None still gets
is_multiplexer = true, and the frame reports is_multiplexed although none
of its signals is designated as the multiplexor. -/
theorem is_multiplexed_none_signal_failure :
    plainSignal.multiplex = MuxSpec.noMux ∧
    plainSignal.is_multiplexer = true ∧
    (∀ s, s ∈ plainFrame.signals → s.multiplex ≠ MuxSpec.multiplexor) ∧
    plainFrame.is_multiplexed = true :=
  ⟨rfl, rfl, by decide, rfl⟩

/-- C10 counterexample: the id composed from source 0x12, pgn 0xBEEF,
priority 3 decomposes to source 0x12 and pgn 0xBEEF, but the only further
value CanId yields is the destination field, which is 12 (priority shifted
left by two), not the priority 3; priority is not decomposed at all. -/
theorem canid_priority_counterexample :
    (CanId.ofId (recalcJ1939Id 0x12 0xBEEF 3) true).source = some 0x12 ∧
    (CanId.ofId (recalcJ1939Id 0x12 0xBEEF 3) true).pgn = some 0xBEEF ∧
    (CanId.ofId (recalcJ1939Id 0x12 0xBEEF 3) true).destination = some 12 ∧
    (CanId.ofId (recalcJ1939Id 0x12 0xBEEF 3) true).destination ≠ some 3 := by
  refine ⟨rfl, rfl, rfl, by decide⟩

/-- C10 (amended): composing the extended id from source 0x12, pgn 0xBEEF,
priority 3 and decomposing with CanId recovers source and pgn exactly; the
destination field carries priority <<< 2 rather than the priority itself. -/
theorem canid_source_pgn_roundtrip :
    (CanId.ofId (recalcJ1939Id 0x12 0xBEEF 3) true).source = some 0x12 ∧
    (CanId.ofId (recalcJ1939Id 0x12 0xBEEF 3) true).pgn = some 0xBEEF ∧
    (CanId.ofId (recalcJ1939Id 0x12 0xBEEF 3) true).destination = some (3 <<< 2) := by
  refine ⟨rfl, rfl, rfl⟩

/-! C1: total width of the packed format. -/

/-- Non-overlap of the stored bit ranges [startBit, startBit + size) of two
signals. -/
def disjointBits (a b : Signal) : Prop :=
  a.startBit + (a.size : ℤ) ≤ b.startBit ∨ b.startBit + (b.size : ℤ) ≤ a.startBit

instance disjointBitsDecidable : DecidableRel disjointBits := fun a b =>
  inferInstanceAs (Decidable (a.startBit + (a.size : ℤ) ≤ b.startBit ∨
    b.startBit + (b.size : ℤ) ≤ a.startBit))

/-- Non-overlap of bit ranges is a symmetric relation. -/
theorem disjointBits_symm : Symmetric disjointBits := fun _ _ h => Or.symm h

/-- The list is sorted (non-strictly) by the frame sort key. -/
def sortedByKey (l : List Signal) : Prop :=
  List.Pairwise (fun a b => sortKey a ≤ sortKey b) l

/-- insertByStartbit is the insertion of its element, up to permutation. -/
theorem insertByStartbit_perm (s : Signal) (l : List Signal) :
    List.Perm (insertByStartbit s l) (s :: l) := by
  induction l with
  | nil => exact List.Perm.refl _
  | cons t ts ih =>
    by_cases h : sortKey s ≤ sortKey t
    · simp only [insertByStartbit, if_pos h]
      exact List.Perm.refl _
    · simp only [insertByStartbit, if_neg h]
      exact List.Perm.trans (List.Perm.cons t ih) (List.Perm.swap s t ts)

/-- sortByStartbit permutes its input. -/
theorem sortByStartbit_perm (l : List Signal) : List.Perm (sortByStartbit l) l := by
  induction l with
  | nil => exact List.Perm.refl _
  | cons s ss ih =>
    exact List.Perm.trans (insertByStartbit_perm s (sortByStartbit ss)) (List.Perm.cons s ih)

/-- Inserting into a sorted list keeps it sorted. -/
theorem insertByStartbit_sorted (s : Signal) (l : List Signal) (h : sortedByKey l) :
    sortedByKey (insertByStartbit s l) := by
  induction l with
  | nil =>
    simp only [insertByStartbit, sortedByKey]
    exact List.pairwise_singleton _ s
  | cons t ts ih =>
    rcases List.pairwise_cons.mp h with ⟨ht, hts⟩
    by_cases hc : sortKey s ≤ sortKey t
    · simp only [insertByStartbit, if_pos hc]
      refine List.pairwise_cons.mpr ⟨?_, h⟩
      intro b hb
      rcases List.mem_cons.mp hb with hb1 | hb2
      · exact hb1 ▸ hc
      · exact le_trans hc (ht b hb2)
    · simp only [insertByStartbit, if_neg hc]
      refine List.pairwise_cons.mpr ⟨?_, ih hts⟩
      intro b hb
      rcases List.mem_cons.mp ((insertByStartbit_perm s ts).mem_iff.mp hb) with hb1 | hb2
      · exact hb1 ▸ le_of_not_le hc
      · exact ht b hb2

/-- sortByStartbit sorts. -/
theorem sortByStartbit_sortedKey (l : List Signal) : sortedByKey (sortByStartbit l) := by
  induction l with
  | nil => exact List.Pairwise.nil
  | cons s ss ih => exact insertByStartbit_sorted s (sortByStartbit ss) ih

/-- calcsize distributes over list append. -/
theorem calcsize_append (a b : List FmtItem) :
    calcsize (a ++ b) = calcsize a + calcsize b := by
  simp [calcsize]

/-- calcsize of a cons. -/
theorem calcsize_cons (x : FmtItem) (l : List FmtItem) :
    calcsize (x :: l) = fmtWidth x + calcsize l := by
  simp [calcsize]

/-- The data field a signal contributes is as wide as the signal. -/
theorem fmtWidth_signal (s : Signal) : fmtWidth s.bitstruct_format = (s.size : ℤ) := rfl

/-- Width accounting of the format loop: over a sorted, pairwise disjoint
list of positive-size signals that fit into frame bit F and start at or
after bit F - e, the emitted fields and paddings total exactly e bits. -/
theorem fmtFields_calcsize (F : ℤ) (l : List Signal) :
    ∀ e : ℤ,
      sortedByKey l →
      List.Pairwise disjointBits l →
      (∀ s, s ∈ l → 0 < s.size ∧ 0 ≤ s.startBit ∧ s.startBit + (s.size : ℤ) ≤ F) →
      (∀ s, s ∈ l → F - e ≤ s.startBit) →
      calcsize (fmtFields F l e) = e := by
  induction l with
  | nil =>
    intro e _ _ _ _
    by_cases h : e = 0
    · simp [fmtFields, h, calcsize]
    · simp [fmtFields, h, calcsize, fmtWidth]
  | cons sig rest ih =>
    intro e hsort hdisj hbounds hinv
    have hhead := hbounds sig (List.mem_cons_self sig rest)
    have hpadnn : 0 ≤ e - (F - sig.startBit) := by
      have := hinv sig (List.mem_cons_self sig rest)
      omega
    have hrest : calcsize (fmtFields F rest (F - sig.startBit - (sig.size : ℤ))) =
        F - sig.startBit - (sig.size : ℤ) := by
      apply ih
      · exact (List.pairwise_cons.mp hsort).2
      · exact (List.pairwise_cons.mp hdisj).2
      · intro s hs
        exact hbounds s (List.mem_cons_of_mem sig hs)
      · intro s hs
        have hle := (List.pairwise_cons.mp hsort).1 s hs
        have hdb := (List.pairwise_cons.mp hdisj).1 s hs
        have hpos := (hbounds s (List.mem_cons_of_mem sig hs)).1
        rw [sortKey_eq_startBit, sortKey_eq_startBit] at hle
        unfold disjointBits at hdb
        rcases hdb with hdb | hdb
        · omega
        · omega
    simp only [fmtFields, getStartbit_none_none]
    rw [calcsize_append, calcsize_cons, fmtWidth_signal, hrest]
    by_cases hp : e - (F - sig.startBit - (sig.size : ℤ) + (sig.size : ℤ)) > 0
    · rw [if_pos hp]
      simp only [calcsize, List.map, List.sum_cons, List.sum_nil, fmtWidth]
      omega
    · rw [if_neg hp]
      simp only [calcsize, List.map, List.sum_nil]
      omega

/-- C1 (amended): for every frame and every list of positive-size signals
whose stored bit ranges are pairwise non-overlapping and fit within the
payload, the total bit width of the format built by Frame.bitstruct_format
(signal fields plus inserted padding) equals frame.size * 8 exactly.  (The
claim without the positive-size restriction is refuted by
bitstruct_format_width_counterexample.) -/
theorem bitstruct_format_total_width (fr : Frame) (sigs : List Signal)
    (hpos : ∀ s, s ∈ sigs → 0 < s.size)
    (hfit : ∀ s, s ∈ sigs →
      0 ≤ s.startBit ∧ s.startBit + (s.size : ℤ) ≤ (fr.size : ℤ) * 8)
    (hdisj : List.Pairwise disjointBits sigs) :
    calcsize (fr.bitstruct_format (some sigs)) = (fr.size : ℤ) * 8 := by
  have hperm := sortByStartbit_perm sigs
  show calcsize (fmtFields ((fr.size : ℤ) * 8) (sortByStartbit sigs) ((fr.size : ℤ) * 8)) = _
  apply fmtFields_calcsize
  · exact sortByStartbit_sortedKey sigs
  · exact (hperm.pairwise_iff (fun hxy => disjointBits_symm hxy)).mpr hdisj
  · intro s hs
    have hm := hperm.mem_iff.mp hs
    exact ⟨hpos s hm, (hfit s hm).1, (hfit s hm).2⟩
  · intro s hs
    have hm := hperm.mem_iff.mp hs
    have := (hfit s hm).1
    omega

/-- Signal A of the C1 counterexample: bits 0..4. -/
def c1sigA : Signal := Signal.make "A" 0 4 true false 0 1 none none MuxSpec.noMux false [] []

/-- Signal Z of the C1 counterexample: zero-size signal at bit 0. -/
def c1sigZ : Signal := Signal.make "Z" 0 0 true false 0 1 none none MuxSpec.noMux false [] []

/-- One-byte frame holding A then Z. -/
def c1frame : Frame :=
  { name := "c1", id := 1, size := 1, extended := false,
    is_complex_multiplexed := false, signals := [c1sigA, c1sigZ] }

/-- C1 counterexample: in a 1-byte frame with signals A (startBit 0, size 4)
and Z (startBit 0, size 0), the ranges are pairwise non-overlapping (Z is
empty) and fit in the 8-bit payload, yet the produced format is 12 bits
wide, not 8: the zero-size signal resets the running end position back to
bit 8, so 8 bits of trailing padding follow the 4-bit field. -/
theorem bitstruct_format_width_counterexample :
    (∀ s, s ∈ c1frame.signals →
      0 ≤ s.startBit ∧ s.startBit + (s.size : ℤ) ≤ (c1frame.size : ℤ) * 8) ∧
    List.Pairwise disjointBits c1frame.signals ∧
    calcsize (c1frame.bitstruct_format none) = 12 ∧
    calcsize (c1frame.bitstruct_format none) ≠ (c1frame.size : ℤ) * 8 :=
  ⟨by decide, by decide, by decide, by decide⟩

/-- Two-byte frame with two disjoint positive-size signals used as the C1
witness: A at bits 3..7 (little-endian) and B at bits 9..14 (big-endian). -/
def c1witFrame : Frame :=
  { name := "w1", id := 4, size := 2, extended := false,
    is_complex_multiplexed := false,
    signals := [Signal.make "wA" 3 4 true false 0 1 none none MuxSpec.noMux false [] [],
                Signal.make "wB" 9 5 false true 0 1 none none MuxSpec.noMux false [] []] }

/-- Concrete instance of the amended C1: the witness frame's format totals
16 bits. -/
theorem bitstruct_format_total_width_witness :
    calcsize (c1witFrame.bitstruct_format (some c1witFrame.signals)) =
      (c1witFrame.size : ℤ) * 8 :=
  bitstruct_format_total_width c1witFrame c1witFrame.signals
    (by decide) (by decide) (by decide)
